import Mathlib

/-!
Shallow embedding of the Turing-machine simulator in `src/turing_machine.py`.

States are modelled as `String`, symbols as `Char`, tape positions as `Int`.
Python exceptions are modelled explicitly: operations that can raise return
either an `Except TMError _`, or (where the claim is about atomicity of the
mutation) a pair `state × Option TMError` whose first component is the
post-state of the object (the Python code raises before mutating, so on
error the post-state equals the pre-state).
-/

/-- Error kinds of the engine (the Python code raises ValueError / RuntimeError
with distinct messages; the spec names them InvalidDefinition, InvalidSymbol,
InvalidDirection, NotInitialized). -/
inductive TMError where
  | invalidDefinition
  | invalidSymbol (c : Char)
  | invalidDirection (d : Char)
  | notInitialized
deriving DecidableEq, Repr

/-- `Tape` from the source: a defaultdict from Int position to symbol
(default: the blank symbol), a head position, and leftmost/rightmost bounds. -/
structure Tape where
  blank_symbol : Char
  tape : Int → Char
  head_position : Int
  leftmost : Int
  rightmost : Int

/-- `Tape.__init__`: seeds positions `0 .. len-1` with the input string
(the Python loop `for i, symbol in enumerate(input_string): self.tape[i] =
symbol` over a defaultdict is modelled as the resulting mapping), head at 0,
leftmost 0, rightmost `len(input_string) - 1 if input_string else 0`. -/
def Tape.init (input_string : List Char) (blank_symbol : Char) : Tape :=
  { blank_symbol := blank_symbol
    tape := fun i =>
      if 0 ≤ i ∧ i < (input_string.length : Int)
      then input_string.getD i.toNat blank_symbol
      else blank_symbol
    head_position := 0
    leftmost := 0
    rightmost := if input_string.isEmpty then 0 else (input_string.length : Int) - 1 }

/-- `Tape.read`: symbol at the head position. -/
def Tape.read (t : Tape) : Char :=
  t.tape t.head_position

/-- `Tape.write`: stores the symbol at the head position and extends
leftmost/rightmost to include the head position. -/
def Tape.write (t : Tape) (symbol : Char) : Tape :=
  { t with
    tape := fun i => if i = t.head_position then symbol else t.tape i
    leftmost := min t.leftmost t.head_position
    rightmost := max t.rightmost t.head_position }

/-- `Tape.move`: head ± 1 for L/R, then extends leftmost/rightmost to include
the new head position; any other direction raises (the raise happens before
any mutation, so the error case returns the tape unchanged). -/
def Tape.move (t : Tape) (direction : Char) : Tape × Option TMError :=
  if direction = 'L' then
    ({ t with
        head_position := t.head_position - 1
        leftmost := min t.leftmost (t.head_position - 1)
        rightmost := max t.rightmost (t.head_position - 1) }, none)
  else if direction = 'R' then
    ({ t with
        head_position := t.head_position + 1
        leftmost := min t.leftmost (t.head_position + 1)
        rightmost := max t.rightmost (t.head_position + 1) }, none)
  else (t, some (TMError.invalidDirection direction))

/-- `Tape.get_tape_string`: display window from `min(leftmost, head - context)`
to `max(rightmost, head + context)` with a head marker line. -/
def Tape.get_tape_string (t : Tape) (context : Int) : String :=
  let start := min t.leftmost (t.head_position - context)
  let stop := max t.rightmost (t.head_position + context)
  let tape_content :=
    String.mk ((List.range (stop - start + 1).toNat).map (fun i => t.tape (start + i)))
  let head_indicator :=
    String.mk (List.replicate (t.head_position - start).toNat ' ') ++ "^"
  "Cinta: " ++ tape_content ++ "\n       " ++ head_indicator

/-- `TransitionFunction`: a dict from (state, read symbol) to
(next state, write symbol, direction). The Python dict is modelled as an
association list where insertion prepends, so lookup of the most recent
binding first gives the dict's overwrite semantics. -/
structure TransitionFunction where
  transitions : List ((String × Char) × (String × Char × Char))

/-- `TransitionFunction.add_transition`: raises InvalidDirection unless the
direction is L or R, otherwise inserts/overwrites the entry. -/
def TransitionFunction.add_transition (tf : TransitionFunction)
    (current_state : String) (read_symbol : Char)
    (next_state : String) (write_symbol : Char) (direction : Char) :
    Except TMError TransitionFunction :=
  if ¬ (direction = 'L' ∨ direction = 'R') then
    Except.error (TMError.invalidDirection direction)
  else
    Except.ok ⟨((current_state, read_symbol), (next_state, write_symbol, direction)) :: tf.transitions⟩

/-- `TransitionFunction.get_transition`: dict `.get`, absence is `none`. -/
def TransitionFunction.get_transition (tf : TransitionFunction)
    (state : String) (symbol : Char) : Option (String × Char × Char) :=
  (tf.transitions.find? (fun e => e.1 == (state, symbol))).map (fun e => e.2)

/-- `TuringMachine`: the static definition fields plus the mutable run state
(current state, optional tape, step counter, execution history). Python sets
are modelled as lists used only through membership/subset tests. -/
structure TuringMachine where
  states : List String
  input_alphabet : List Char
  tape_alphabet : List Char
  transition_function : TransitionFunction
  initial_state : String
  blank_symbol : Char
  accept_states : List String
  current_state : String
  tape : Option Tape
  step_count : Nat
  execution_history : List (String × Int × String)

/-- `TuringMachine.__init__`: the four eager validation checks, in source
order, each raising InvalidDefinition; on success every static field is set
as given and the run state is `current_state = initial_state`, no tape,
step count 0, empty history. -/
def mkTuringMachine (states : List String) (input_alphabet : List Char)
    (tape_alphabet : List Char) (transition_function : TransitionFunction)
    (initial_state : String) (blank_symbol : Char) (accept_states : List String) :
    Except TMError TuringMachine :=
  if ¬ states.contains initial_state then
    Except.error TMError.invalidDefinition
  else if ¬ accept_states.all states.contains then
    Except.error TMError.invalidDefinition
  else if ¬ input_alphabet.all tape_alphabet.contains then
    Except.error TMError.invalidDefinition
  else if ¬ tape_alphabet.contains blank_symbol then
    Except.error TMError.invalidDefinition
  else
    Except.ok
      { states := states
        input_alphabet := input_alphabet
        tape_alphabet := tape_alphabet
        transition_function := transition_function
        initial_state := initial_state
        blank_symbol := blank_symbol
        accept_states := accept_states
        current_state := initial_state
        tape := none
        step_count := 0
        execution_history := [] }

/-- `TuringMachine._save_configuration`: if a tape exists, append
(current state, head position, tape string) to the history. -/
def TuringMachine.save_configuration (m : TuringMachine) : TuringMachine :=
  match m.tape with
  | some t =>
      { m with execution_history :=
          m.execution_history ++ [(m.current_state, t.head_position, t.get_tape_string 10)] }
  | none => m

/-- `TuringMachine.reset`: validates every character of the input string
against the input alphabet (raising InvalidSymbol at the first bad one,
before any mutation — the error case returns the machine unchanged), then
allocates a fresh tape, sets current state to the initial state, zeroes the
step counter, clears the history and saves the initial configuration. -/
def TuringMachine.reset (m : TuringMachine) (input_string : List Char) :
    TuringMachine × Option TMError :=
  match input_string.find? (fun symbol => ! m.input_alphabet.contains symbol) with
  | some symbol => (m, some (TMError.invalidSymbol symbol))
  | none =>
      (TuringMachine.save_configuration
        { m with
            tape := some (Tape.init input_string m.blank_symbol)
            current_state := m.initial_state
            step_count := 0
            execution_history := [] }, none)

/-- `TuringMachine.step`: raises NotInitialized without a tape; returns
`false` (no further progress) when the current state is accepting — checked
before the table lookup — or when no transition matches; otherwise writes,
moves, updates state, increments the step counter, saves the configuration
and returns `true`. -/
def TuringMachine.step (m : TuringMachine) : Except TMError (TuringMachine × Bool) :=
  match m.tape with
  | none => Except.error TMError.notInitialized
  | some t =>
      if m.accept_states.contains m.current_state then
        Except.ok (m, false)
      else
        match m.transition_function.get_transition m.current_state t.read with
        | none => Except.ok (m, false)
        | some (next_state, write_symbol, direction) =>
            match (t.write write_symbol).move direction with
            | (_, some err) => Except.error err
            | (t2, none) =>
                Except.ok
                  (TuringMachine.save_configuration
                    { m with
                        tape := some t2
                        current_state := next_state
                        step_count := m.step_count + 1 }, true)

/-- The loop body of `TuringMachine.run`:
`while self.step_count < max_steps: can_continue = self.step(); if not
can_continue: break`. After a reset the step counter is 0 and each successful
step increments it by exactly 1, so the while condition admits exactly
`max_steps` further successful steps; the loop is recursion on that
remaining budget. -/
def TuringMachine.runLoop (m : TuringMachine) : Nat → Except TMError TuringMachine
  | 0 => Except.ok m
  | remaining + 1 =>
      match m.step with
      | Except.error e => Except.error e
      | Except.ok (m2, true) => TuringMachine.runLoop m2 remaining
      | Except.ok (m2, false) => Except.ok m2

/-- `TuringMachine.run` (engine part; printing stripped): reset with the
input string — an InvalidSymbol error propagates — then loop `step` under the
`max_steps` budget. -/
def TuringMachine.run (m : TuringMachine) (input_string : List Char)
    (max_steps : Nat) : Except TMError TuringMachine :=
  match m.reset input_string with
  | (_, some e) => Except.error e
  | (m1, none) => m1.runLoop max_steps

/-- `TuringMachine.get_result`: classification from the current state only.
Note: unlike `step`, it performs no initialization check. -/
def TuringMachine.get_result (m : TuringMachine) : String :=
  if m.accept_states.contains m.current_state then "Acepta" else "Rechaza"

/-- Iterating `step` while it keeps reporting progress: `some` holds the
machine after `k` successful steps, `none` means the machine halted or
errored within the first `k` steps. -/
def iterStep : Nat → TuringMachine → Option TuringMachine
  | 0, m => some m
  | k + 1, m =>
      match m.step with
      | Except.ok (m2, true) => iterStep k m2
      | _ => none

/-- A machine (in its current run state) never reaches a halting
configuration: every number of further steps succeeds with progress. -/
def NeverHalts (m : TuringMachine) : Prop :=
  ∀ k : Nat, (iterStep k m).isSome = true

/-! ### Sample machines for concrete witnesses -/

/-- A machine whose current (initial) state is accepting and also has an
outgoing transition defined for the symbol under the head. -/
def mAcc : TuringMachine :=
  { states := ["qa", "qb"]
    input_alphabet := []
    tape_alphabet := ['_']
    transition_function := ⟨[(("qa", '_'), ("qb", '_', 'R'))]⟩
    initial_state := "qa"
    blank_symbol := '_'
    accept_states := ["qa"]
    current_state := "qa"
    tape := some (Tape.init [] '_')
    step_count := 0
    execution_history := [] }

/-- A machine in a non-accepting state with an empty transition table. -/
def mStuck : TuringMachine :=
  { states := ["q0", "qa"]
    input_alphabet := ['0']
    tape_alphabet := ['0', '_']
    transition_function := ⟨[]⟩
    initial_state := "q0"
    blank_symbol := '_'
    accept_states := ["qa"]
    current_state := "q0"
    tape := some (Tape.init ['0'] '_')
    step_count := 0
    execution_history := [] }

/-- A freshly constructed machine (as `mkTuringMachine` returns it): no tape,
reset never called. -/
def freshM : TuringMachine :=
  { states := ["q0", "qa"]
    input_alphabet := ['0']
    tape_alphabet := ['0', '_']
    transition_function := ⟨[]⟩
    initial_state := "q0"
    blank_symbol := '_'
    accept_states := ["qa"]
    current_state := "q0"
    tape := none
    step_count := 0
    execution_history := [] }

/-- Claim C1: whenever the current state is in the accept states, `step`
returns no-further-progress without consulting the transition table, and the
whole run state (the machine record) is unchanged. -/
theorem c1_accept_priority (m : TuringMachine) (t : Tape)
    (ht : m.tape = some t)
    (hacc : m.accept_states.contains m.current_state = true) :
    m.step = Except.ok (m, false) := by
  have hmem : m.current_state ∈ m.accept_states := by simpa using hacc
  simp [TuringMachine.step, ht, hmem]

/-- Witness for C1 at `mAcc`: the accept state even has a transition defined
for the symbol under the head, yet `step` leaves the machine unchanged. -/
theorem c1_accept_priority_witness :
    mAcc.transition_function.get_transition mAcc.current_state
      (Tape.init [] '_').read = some ("qb", '_', 'R')
    ∧ mAcc.step = Except.ok (mAcc, false) :=
  ⟨by decide, c1_accept_priority mAcc (Tape.init [] '_') rfl (by decide)⟩

/-- Claim C3: if the current state is not accepting and the transition table
has no entry for (current state, symbol under head), `step` returns
no-further-progress with the machine record (state, tape, counter, history)
unchanged. -/
theorem c3_absent_transition (m : TuringMachine) (t : Tape)
    (ht : m.tape = some t)
    (hacc : m.accept_states.contains m.current_state = false)
    (habs : m.transition_function.get_transition m.current_state t.read = none) :
    m.step = Except.ok (m, false) := by
  have hmem : m.current_state ∉ m.accept_states := by simpa using hacc
  simp [TuringMachine.step, ht, hmem, habs]

/-- Witness for C3 at `mStuck`. -/
theorem c3_absent_transition_witness :
    mStuck.accept_states.contains mStuck.current_state = false
    ∧ mStuck.step = Except.ok (mStuck, false) :=
  ⟨by decide, c3_absent_transition mStuck (Tape.init ['0'] '_') rfl (by decide) (by decide)⟩

/-- Counterexample to claim C8: a freshly constructed machine (reset never
called, so no tape exists) on which querying the final classification does
NOT fail with NotInitialized: `get_result` performs no initialization check
and simply returns a classification computed from the current state. -/
theorem c8_counterexample :
    mkTuringMachine ["q0", "qa"] ['0'] ['0', '_'] ⟨[]⟩ "q0" '_' ["qa"]
      = Except.ok freshM
    ∧ freshM.tape = none
    ∧ freshM.get_result = "Rechaza" :=
  ⟨rfl, rfl, by decide⟩

/-- Claim C8 as amended: on a machine with no tape (reset never called),
`step` fails with NotInitialized; `get_result`, however, does not fail — it
returns a classification ("Acepta" or "Rechaza") computed from the current
state, which at construction is the initial state. -/
theorem c8_not_initialized (m : TuringMachine) (h : m.tape = none) :
    m.step = Except.error TMError.notInitialized
    ∧ (m.get_result = "Acepta" ∨ m.get_result = "Rechaza") := by
  refine ⟨by simp [TuringMachine.step, h], ?_⟩
  unfold TuringMachine.get_result
  split
  · exact Or.inl rfl
  · exact Or.inr rfl

/-- Witness for the amended C8 at `freshM`. -/
theorem c8_not_initialized_witness :
    freshM.tape = none
    ∧ (freshM.step = Except.error TMError.notInitialized
       ∧ (freshM.get_result = "Acepta" ∨ freshM.get_result = "Rechaza")) :=
  ⟨rfl, c8_not_initialized freshM rfl⟩

/-- Reduction of `reset` when every input character is accepted. -/
theorem reset_eq_of_none (m : TuringMachine) (s : List Char)
    (hf : s.find? (fun symbol => ! m.input_alphabet.contains symbol) = none) :
    m.reset s =
      (TuringMachine.save_configuration
        { m with
            tape := some (Tape.init s m.blank_symbol)
            current_state := m.initial_state
            step_count := 0
            execution_history := [] }, none) := by
  unfold TuringMachine.reset
  rw [hf]

/-- Reduction of `reset` when the scan finds an offending character. -/
theorem reset_eq_of_some (m : TuringMachine) (s : List Char) (c : Char)
    (hf : s.find? (fun symbol => ! m.input_alphabet.contains symbol) = some c) :
    m.reset s = (m, some (TMError.invalidSymbol c)) := by
  unfold TuringMachine.reset
  rw [hf]

/-- Claim C4: `reset` fails — with an InvalidSymbol error naming an offending
character — exactly when some character of the input string is outside the
input alphabet, and on failure the whole previous run state (the machine
record, tape included) is returned unchanged. -/
theorem c4_reset_atomicity (m : TuringMachine) (s : List Char) :
    ((m.reset s).2 = none ↔ ∀ c ∈ s, m.input_alphabet.contains c = true)
    ∧ (∀ e, (m.reset s).2 = some e →
        (∃ c ∈ s, m.input_alphabet.contains c = false ∧ e = TMError.invalidSymbol c)
        ∧ (m.reset s).1 = m) := by
  cases hf : s.find? (fun symbol => ! m.input_alphabet.contains symbol) with
  | none =>
      have hall : ∀ c ∈ s, m.input_alphabet.contains c = true := by
        intro c hc
        have := List.find?_eq_none.mp hf c hc
        simpa using this
      rw [reset_eq_of_none m s hf]
      exact ⟨⟨fun _ => hall, fun _ => rfl⟩, fun e he => Option.noConfusion he⟩
  | some c =>
      have hc : m.input_alphabet.contains c = false := by
        have := List.find?_some hf
        simpa using this
      have hmem : c ∈ s := List.mem_of_find?_eq_some hf
      rw [reset_eq_of_some m s c hf]
      refine ⟨⟨fun h => Option.noConfusion h, fun hall => ?_⟩, fun e he => ?_⟩
      · exfalso
        have h1 := hall c hmem
        rw [hc] at h1
        exact absurd h1 (by decide)
      · injection he with h2
        exact ⟨⟨c, hmem, hc, h2.symm⟩, rfl⟩

/-- Witness for C4 at `freshM` and the input "2" (the digit 2 is not in the
input alphabet): reset reports InvalidSymbol and leaves the machine intact. -/
theorem c4_reset_atomicity_witness :
    (∃ c ∈ (['2'] : List Char), freshM.input_alphabet.contains c = false
       ∧ TMError.invalidSymbol '2' = TMError.invalidSymbol c)
    ∧ (freshM.reset ['2']).1 = freshM :=
  (c4_reset_atomicity freshM ['2']).2 (TMError.invalidSymbol '2') rfl

/-- Claim C5: on an input string all of whose characters are in the input
alphabet, `reset` succeeds and installs a fresh tape holding the input at
positions `0 .. len-1` and the blank symbol elsewhere, head at 0, leftmost 0,
rightmost `max 0 (len - 1)`; the current state becomes the initial state, the
step counter 0, and the history is exactly the one initial configuration. -/
theorem c5_reset_success (m : TuringMachine) (s : List Char)
    (hok : ∀ c ∈ s, m.input_alphabet.contains c = true) :
    ∃ T : Tape,
      (m.reset s).2 = none
      ∧ (m.reset s).1 =
          { m with
              tape := some T
              current_state := m.initial_state
              step_count := 0
              execution_history := [(m.initial_state, T.head_position, T.get_tape_string 10)] }
      ∧ T.head_position = 0
      ∧ T.leftmost = 0
      ∧ T.rightmost = max 0 ((s.length : Int) - 1)
      ∧ T.blank_symbol = m.blank_symbol
      ∧ (∀ (j : Nat) (hj : j < s.length), T.tape (j : Int) = s.get ⟨j, hj⟩)
      ∧ (∀ i : Int, i < 0 ∨ (s.length : Int) ≤ i → T.tape i = m.blank_symbol) := by
  have hf : s.find? (fun symbol => ! m.input_alphabet.contains symbol) = none :=
    List.find?_eq_none.mpr (fun c hc => by simpa using hok c hc)
  refine ⟨Tape.init s m.blank_symbol, ?_, ?_, rfl, rfl, ?_, rfl, ?_, ?_⟩
  · rw [reset_eq_of_none m s hf]
  · rw [reset_eq_of_none m s hf]
    rfl
  · cases s with
    | nil => simp [Tape.init]
    | cons a l =>
        simp only [Tape.init, List.isEmpty_cons, List.length_cons]
        rw [max_eq_right (by push_cast; omega)]
        simp
  · intro j hj
    have h0 : (0 : Int) ≤ (j : Int) ∧ (j : Int) < (s.length : Int) :=
      ⟨Int.ofNat_nonneg j, by exact_mod_cast hj⟩
    simp only [Tape.init]
    rw [if_pos h0, Int.toNat_ofNat, List.getD_eq_getElem s m.blank_symbol hj]
    simp
  · intro i hi
    have hno : ¬ (0 ≤ i ∧ i < (s.length : Int)) := by omega
    simp only [Tape.init]
    rw [if_neg hno]

/-- Witness for C5 at `freshM` with input "00". -/
theorem c5_reset_success_witness :
    (∀ c ∈ (['0', '0'] : List Char), freshM.input_alphabet.contains c = true)
    ∧ ∃ T : Tape,
        (freshM.reset ['0', '0']).2 = none
        ∧ (freshM.reset ['0', '0']).1 =
            { freshM with
                tape := some T
                current_state := freshM.initial_state
                step_count := 0
                execution_history :=
                  [(freshM.initial_state, T.head_position, T.get_tape_string 10)] }
        ∧ T.head_position = 0
        ∧ T.leftmost = 0
        ∧ T.rightmost = max 0 (((['0', '0'] : List Char).length : Int) - 1)
        ∧ T.blank_symbol = freshM.blank_symbol
        ∧ (∀ (j : Nat) (hj : j < (['0', '0'] : List Char).length),
            T.tape (j : Int) = (['0', '0'] : List Char).get ⟨j, hj⟩)
        ∧ (∀ i : Int, i < 0 ∨ (((['0', '0'] : List Char).length : Int)) ≤ i →
            T.tape i = freshM.blank_symbol) :=
  ⟨by decide, c5_reset_success freshM ['0', '0'] (by decide)⟩

/-- A machine one successful step away: non-accepting current state with a
matching transition. -/
def mStep : TuringMachine :=
  { states := ["q0", "q1"]
    input_alphabet := ['0']
    tape_alphabet := ['0', '1', '_']
    transition_function := ⟨[(("q0", '0'), ("q1", '1', 'R'))]⟩
    initial_state := "q0"
    blank_symbol := '_'
    accept_states := []
    current_state := "q0"
    tape := some (Tape.init ['0'] '_')
    step_count := 0
    execution_history := [] }

/-- Claim C6: with a non-accepting current state and a matching transition
(nextState, writeSymbol, direction), `step` writes the symbol at the head
position, moves the head one cell in the given direction, sets the current
state to nextState, increments the step counter by exactly 1, appends exactly
one configuration entry to the history, and reports progress. -/
theorem c6_step_success (m : TuringMachine) (t : Tape) (ns : String) (ws d : Char)
    (ht : m.tape = some t)
    (hacc : m.accept_states.contains m.current_state = false)
    (htr : m.transition_function.get_transition m.current_state t.read = some (ns, ws, d))
    (hd : d = 'L' ∨ d = 'R') :
    ∃ t2 : Tape,
      m.step =
        Except.ok
          ({ m with
              tape := some t2
              current_state := ns
              step_count := m.step_count + 1
              execution_history :=
                m.execution_history ++ [(ns, t2.head_position, t2.get_tape_string 10)] }, true)
      ∧ t2.tape t.head_position = ws
      ∧ t2.head_position =
          (if d = 'R' then t.head_position + 1 else t.head_position - 1) := by
  have hmem : m.current_state ∉ m.accept_states := by simpa using hacc
  rcases hd with hd | hd <;> subst hd
  · refine ⟨((t.write ws).move 'L').1, ?_, ?_, ?_⟩
    · simp [TuringMachine.step, ht, hmem, htr, Tape.move,
        TuringMachine.save_configuration]
    · simp [Tape.move, Tape.write]
    · simp [Tape.move, Tape.write]
  · refine ⟨((t.write ws).move 'R').1, ?_, ?_, ?_⟩
    · simp [TuringMachine.step, ht, hmem, htr, Tape.move,
        TuringMachine.save_configuration]
    · simp [Tape.move, Tape.write]
    · simp [Tape.move, Tape.write]

/-- Witness for C6 at `mStep`: reading '0' in state q0 fires the rule to q1,
writing '1' and moving right. -/
theorem c6_step_success_witness :
    mStep.accept_states.contains mStep.current_state = false
    ∧ ∃ t2 : Tape,
        mStep.step =
          Except.ok
            ({ mStep with
                tape := some t2
                current_state := "q1"
                step_count := mStep.step_count + 1
                execution_history :=
                  mStep.execution_history ++ [("q1", t2.head_position, t2.get_tape_string 10)] }, true)
        ∧ t2.tape (Tape.init ['0'] '_').head_position = '1'
        ∧ t2.head_position =
            (if ('R' : Char) = 'R' then (Tape.init ['0'] '_').head_position + 1
             else (Tape.init ['0'] '_').head_position - 1) :=
  ⟨by decide,
   c6_step_success mStep (Tape.init ['0'] '_') "q1" '1' 'R' rfl (by decide) (by decide)
     (Or.inr rfl)⟩

/-- Claim C7: construction fails with InvalidDefinition exactly when the
initial state is outside the state set, the accept states are not a subset
of the states, the input alphabet is not a subset of the tape alphabet, or
the blank symbol is outside the tape alphabet; otherwise it succeeds with
every field set as given (and the run state fresh). -/
theorem c7_construction_validation (states : List String)
    (input_alphabet tape_alphabet : List Char) (tf : TransitionFunction)
    (initial_state : String) (blank_symbol : Char) (accept_states : List String) :
    (mkTuringMachine states input_alphabet tape_alphabet tf initial_state blank_symbol
        accept_states = Except.error TMError.invalidDefinition
      ↔ (initial_state ∉ states
         ∨ ¬ (∀ q ∈ accept_states, q ∈ states)
         ∨ ¬ (∀ c ∈ input_alphabet, c ∈ tape_alphabet)
         ∨ blank_symbol ∉ tape_alphabet))
    ∧ (initial_state ∈ states →
       (∀ q ∈ accept_states, q ∈ states) →
       (∀ c ∈ input_alphabet, c ∈ tape_alphabet) →
       blank_symbol ∈ tape_alphabet →
       mkTuringMachine states input_alphabet tape_alphabet tf initial_state blank_symbol
           accept_states
         = Except.ok
             { states := states
               input_alphabet := input_alphabet
               tape_alphabet := tape_alphabet
               transition_function := tf
               initial_state := initial_state
               blank_symbol := blank_symbol
               accept_states := accept_states
               current_state := initial_state
               tape := none
               step_count := 0
               execution_history := [] }) := by
  cases h1 : states.contains initial_state <;>
    cases h2 : accept_states.all states.contains <;>
      cases h3 : input_alphabet.all tape_alphabet.contains <;>
        cases h4 : tape_alphabet.contains blank_symbol <;>
          simp_all [mkTuringMachine]

/-- Witness for C7: a well-formed definition constructs successfully with the
given fields. -/
theorem c7_construction_validation_witness :
    mkTuringMachine ["q0", "qa"] ['0'] ['0', '_'] ⟨[]⟩ "q0" '_' ["qa"]
      = Except.ok freshM :=
  (c7_construction_validation ["q0", "qa"] ['0'] ['0', '_'] ⟨[]⟩ "q0" '_' ["qa"]).2
    (by decide) (by decide) (by decide) (by decide)

/-- Claim C10: the bounds invariant leftmost ≤ head ≤ rightmost holds at tape
construction and after every write and every successful move; `move` fails
with InvalidDirection exactly for directions outside {L, R}, and then leaves
the tape unchanged. -/
theorem c10_tape_bounds (s : List Char) (b sym d : Char) (t : Tape) :
    ((Tape.init s b).leftmost ≤ (Tape.init s b).head_position
      ∧ (Tape.init s b).head_position ≤ (Tape.init s b).rightmost)
    ∧ ((t.write sym).leftmost ≤ (t.write sym).head_position
      ∧ (t.write sym).head_position ≤ (t.write sym).rightmost)
    ∧ ((t.move d).2 = none →
        ((t.move d).1.leftmost ≤ (t.move d).1.head_position
          ∧ (t.move d).1.head_position ≤ (t.move d).1.rightmost))
    ∧ ((t.move d).2 = some (TMError.invalidDirection d) ↔ ¬(d = 'L' ∨ d = 'R'))
    ∧ (¬(d = 'L' ∨ d = 'R') → (t.move d).1 = t) := by
  refine ⟨⟨?_, ?_⟩, ⟨min_le_right _ _, le_max_right _ _⟩, ?_, ?_, ?_⟩
  · simp [Tape.init]
  · cases s with
    | nil => simp [Tape.init]
    | cons a l => simp [Tape.init]
  · intro hm
    by_cases hL : d = 'L'
    · subst hL
      simp [Tape.move, inf_le_right, le_sup_right]
    · by_cases hR : d = 'R'
      · subst hR
        simp [Tape.move, inf_le_right, le_sup_right]
      · exfalso
        simp [Tape.move, hL, hR] at hm
  · by_cases hL : d = 'L'
    · subst hL
      simp [Tape.move]
    · by_cases hR : d = 'R'
      · subst hR
        simp [Tape.move]
      · simp [Tape.move, hL, hR]
  · intro hnot
    have hL : ¬ d = 'L' := fun h => hnot (Or.inl h)
    have hR : ¬ d = 'R' := fun h => hnot (Or.inr h)
    simp [Tape.move, hL, hR]

/-- Witness for C10: a successful move right keeps the bounds invariant; the
direction 'X' is rejected with InvalidDirection and the tape is unchanged. -/
theorem c10_tape_bounds_witness :
    (((Tape.init ['0'] '_').move 'R').2 = none
      ∧ (((Tape.init ['0'] '_').move 'R').1.leftmost
            ≤ ((Tape.init ['0'] '_').move 'R').1.head_position
        ∧ ((Tape.init ['0'] '_').move 'R').1.head_position
            ≤ ((Tape.init ['0'] '_').move 'R').1.rightmost))
    ∧ (((Tape.init ['0'] '_').move 'X').2 = some (TMError.invalidDirection 'X')
      ∧ ((Tape.init ['0'] '_').move 'X').1 = Tape.init ['0'] '_') :=
  ⟨⟨rfl, (c10_tape_bounds ['0'] '_' '_' 'R' (Tape.init ['0'] '_')).2.2.1 rfl⟩,
   ⟨(c10_tape_bounds ['0'] '_' '_' 'X' (Tape.init ['0'] '_')).2.2.2.1.mpr (by decide),
    (c10_tape_bounds ['0'] '_' '_' 'X' (Tape.init ['0'] '_')).2.2.2.2 (by decide)⟩⟩

/-- Case analysis of a non-raising `step` call: either it reports no progress
and the machine is unchanged, or it reports progress, the step counter grew
by exactly one, the pre-state was not accepting, and exactly one entry was
appended to the history. -/
theorem step_ok_cases (m m2 : TuringMachine) (b : Bool)
    (h : m.step = Except.ok (m2, b)) :
    (b = false ∧ m2 = m)
    ∨ (b = true ∧ m2.step_count = m.step_count + 1
        ∧ m.accept_states.contains m.current_state = false
        ∧ ∃ e, m2.execution_history = m.execution_history ++ [e]) := by
  unfold TuringMachine.step at h
  split at h
  · exact Except.noConfusion h
  · rename_i t heq
    split at h
    · rename_i hc
      injection h with hp
      injection hp with hm hb
      exact Or.inl ⟨hb.symm, hm.symm⟩
    · rename_i hc
      split at h
      · injection h with hp
        injection hp with hm hb
        exact Or.inl ⟨hb.symm, hm.symm⟩
      · rename_i ns ws d htr
        split at h
        · exact Except.noConfusion h
        · rename_i t2 hmv
          injection h with hp
          injection hp with hm hb
          subst hm
          subst hb
          refine Or.inr ⟨rfl, rfl, by simpa using hc, ?_⟩
          exact ⟨(ns, t2.head_position, t2.get_tape_string 10), rfl⟩

/-- Unfolding one layer of `iterStep` along a progressing step. -/
theorem iterStep_succ_of_step (m m2 : TuringMachine) (k : Nat)
    (h : m.step = Except.ok (m2, true)) :
    iterStep (k + 1) m = iterStep k m2 := by
  simp only [iterStep, h]

/-- A never-halting machine makes one progressing step into a never-halting
machine. -/
theorem neverHalts_step (m : TuringMachine) (h : NeverHalts m) :
    ∃ m2, m.step = Except.ok (m2, true) ∧ NeverHalts m2 := by
  have h1 := h 1
  cases hs : m.step with
  | error e =>
      unfold iterStep at h1
      rw [hs] at h1
      simp at h1
  | ok p =>
      obtain ⟨m2, b⟩ := p
      cases b with
      | false =>
          unfold iterStep at h1
          rw [hs] at h1
          simp at h1
      | true =>
          refine ⟨m2, rfl, fun k => ?_⟩
          have hk := h (k + 1)
          rw [iterStep_succ_of_step m m2 k hs] at hk
          exact hk

/-- The run loop of a never-halting machine uses its whole budget: `r` more
successful steps happen, each adding 1 to the step counter. -/
theorem runLoop_of_neverHalts (r : Nat) :
    ∀ m : TuringMachine, NeverHalts m →
      ∃ m2, m.runLoop r = Except.ok m2 ∧ m2.step_count = m.step_count + r
        ∧ NeverHalts m2 := by
  induction r with
  | zero => exact fun m h => ⟨m, rfl, rfl, h⟩
  | succ k ih =>
      intro m h
      obtain ⟨m1, hs, h1⟩ := neverHalts_step m h
      obtain ⟨m2, hloop, hcnt, h2⟩ := ih m1 h1
      refine ⟨m2, ?_, ?_, h2⟩
      · unfold TuringMachine.runLoop
        rw [hs]
        exact hloop
      · rcases step_ok_cases m m1 true hs with ⟨hb, _⟩ | ⟨_, hcnt1, _, _⟩
        · exact Bool.noConfusion hb
        · omega

/-- A successful reset zeroes the step counter. -/
theorem reset_ok_step_count (m : TuringMachine) (s : List Char)
    (hr : (m.reset s).2 = none) : (m.reset s).1.step_count = 0 := by
  cases hf : s.find? (fun symbol => ! m.input_alphabet.contains symbol) with
  | some c =>
      rw [reset_eq_of_some m s c hf] at hr
      exact Option.noConfusion hr
  | none =>
      rw [reset_eq_of_none m s hf]
      rfl

/-- Claim C2: a machine whose run never reaches a halting configuration, run
under budget N, ends with step counter exactly N and classified "Rechaza";
and — universally, for every run, whether it halted by acceptance, deadlock
or budget exhaustion — the classification after a run is "Acepta" exactly
when the final current state is an accept state, "Rechaza" otherwise. -/
theorem c2_max_steps_enforcement (m : TuringMachine) (s : List Char) (N : Nat) :
    ((m.reset s).2 = none → NeverHalts (m.reset s).1 →
      ∃ mN, m.run s N = Except.ok mN ∧ mN.step_count = N ∧ mN.get_result = "Rechaza")
    ∧ (∀ (K : Nat) (mf : TuringMachine), m.run s K = Except.ok mf →
        ((mf.get_result = "Acepta" ↔ mf.current_state ∈ mf.accept_states)
          ∧ (mf.get_result = "Rechaza" ↔ mf.current_state ∉ mf.accept_states))) := by
  constructor
  · intro hr hnever
    obtain ⟨mN, hloop, hcnt, hnv⟩ := runLoop_of_neverHalts N (m.reset s).1 hnever
    have h0 : (m.reset s).1.step_count = 0 := reset_ok_step_count m s hr
    have hpair : m.reset s = ((m.reset s).1, none) := by rw [← hr]
    refine ⟨mN, ?_, by omega, ?_⟩
    · unfold TuringMachine.run
      rw [hpair]
      exact hloop
    · obtain ⟨m2, hs2, _⟩ := neverHalts_step mN hnv
      rcases step_ok_cases mN m2 true hs2 with ⟨hb, _⟩ | ⟨_, _, hcontains, _⟩
      · exact Bool.noConfusion hb
      · have hmem : mN.current_state ∉ mN.accept_states := by simpa using hcontains
        simp [TuringMachine.get_result, hmem]
  · intro K mf _
    unfold TuringMachine.get_result
    by_cases hc : mf.current_state ∈ mf.accept_states
    · have hb : mf.accept_states.contains mf.current_state = true := by simpa using hc
      rw [if_pos hb]
      exact ⟨⟨fun _ => hc, fun _ => rfl⟩,
        ⟨fun h => absurd h (by decide), fun h => absurd hc h⟩⟩
    · rw [if_neg (by simpa using hc)]
      exact ⟨⟨fun h => absurd h (by decide), fun h => absurd h hc⟩,
        ⟨fun _ => hc, fun _ => rfl⟩⟩

/-- A one-state looping machine: in q0 on blank it rewrites the blank and
moves right forever; q0 is not accepting. -/
def loopM : TuringMachine :=
  { states := ["q0", "qa"]
    input_alphabet := []
    tape_alphabet := ['_']
    transition_function := ⟨[(("q0", '_'), ("q0", '_', 'R'))]⟩
    initial_state := "q0"
    blank_symbol := '_'
    accept_states := ["qa"]
    current_state := "q0"
    tape := none
    step_count := 0
    execution_history := [] }

/-- Invariant of `loopM` runs: state q0, the loop transition table, and an
all-blank tape. -/
def LoopInv (m : TuringMachine) : Prop :=
  m.current_state = "q0"
  ∧ m.accept_states = ["qa"]
  ∧ m.transition_function = loopM.transition_function
  ∧ ∃ t, m.tape = some t ∧ ∀ i, t.tape i = '_'

/-- The loop invariant survives one step, and the step reports progress. -/
theorem loopInv_step (m : TuringMachine) (h : LoopInv m) :
    ∃ m2, m.step = Except.ok (m2, true) ∧ LoopInv m2 := by
  obtain ⟨hcs, hacc, htf, t, ht, hblank⟩ := h
  have hread : t.read = '_' := hblank _
  have hget : m.transition_function.get_transition m.current_state t.read
      = some ("q0", '_', 'R') := by
    rw [htf, hcs, hread]
    decide
  have hmem : m.current_state ∉ m.accept_states := by
    rw [hcs, hacc]
    decide
  refine ⟨TuringMachine.save_configuration
      { m with
          tape := some (((t.write '_').move 'R').1)
          current_state := "q0"
          step_count := m.step_count + 1 }, ?_, ?_⟩
  · simp [TuringMachine.step, ht, hmem, hget, Tape.move]
  · refine ⟨rfl, ?_, ?_, ⟨((t.write '_').move 'R').1, rfl, ?_⟩⟩
    · exact hacc
    · exact htf
    · intro i
      simp [Tape.move, Tape.write, hblank]

/-- From the loop invariant, every number of iterated steps succeeds. -/
theorem loopInv_iterStep (k : Nat) :
    ∀ m : TuringMachine, LoopInv m → (iterStep k m).isSome = true := by
  induction k with
  | zero => exact fun m _ => rfl
  | succ n ih =>
      intro m h
      obtain ⟨m2, hs, h2⟩ := loopInv_step m h
      rw [iterStep_succ_of_step m m2 n hs]
      exact ih m2 h2

/-- After resetting `loopM` on the empty input, the loop invariant holds. -/
theorem loopM_reset_loopInv : LoopInv (loopM.reset []).1 := by
  rw [reset_eq_of_none loopM [] rfl]
  refine ⟨rfl, rfl, rfl, Tape.init [] '_', rfl, ?_⟩
  intro i
  simp only [Tape.init, List.length_nil]
  rw [if_neg (by omega)]

/-- Witness for C2, exercising both classification outcomes: `loopM` on the
empty input never halts, so run with budget 3 it stops with step counter 3
and classification "Rechaza"; `mAcc` halts immediately in its accept state
and its run is classified "Acepta". -/
theorem c2_max_steps_enforcement_witness :
    ((loopM.reset []).2 = none
      ∧ ∃ mN, loopM.run [] 3 = Except.ok mN ∧ mN.step_count = 3
          ∧ mN.get_result = "Rechaza")
    ∧ (mAcc.run [] 1 = Except.ok (mAcc.reset []).1
      ∧ (mAcc.reset []).1.get_result = "Acepta") :=
  ⟨⟨rfl, (c2_max_steps_enforcement loopM [] 3).1 rfl
      (fun k => loopInv_iterStep k (loopM.reset []).1 loopM_reset_loopInv)⟩,
   ⟨rfl,
    ((c2_max_steps_enforcement mAcc [] 1).2 1 (mAcc.reset []).1 rfl).1.mpr (by decide)⟩⟩

/-- Claim C9: immediately after a successful reset the history holds exactly
step counter + 1 entries (the initial configuration), and every non-raising
`step` preserves this invariant while only ever appending to the history. -/
theorem c9_history_length (m : TuringMachine) (s : List Char)
    (hr : (m.reset s).2 = none) :
    ((m.reset s).1.execution_history.length = (m.reset s).1.step_count + 1)
    ∧ ∀ (m1 m2 : TuringMachine) (b : Bool),
        m1.execution_history.length = m1.step_count + 1 →
        m1.step = Except.ok (m2, b) →
        (m2.execution_history.length = m2.step_count + 1
          ∧ ∃ tl, m2.execution_history = m1.execution_history ++ tl) := by
  constructor
  · cases hf : s.find? (fun symbol => ! m.input_alphabet.contains symbol) with
    | some c =>
        rw [reset_eq_of_some m s c hf] at hr
        exact Option.noConfusion hr
    | none =>
        rw [reset_eq_of_none m s hf]
        rfl
  · intro m1 m2 b hlen hs
    rcases step_ok_cases m1 m2 b hs with ⟨_, rfl⟩ | ⟨_, hcnt, _, e, hhist⟩
    · exact ⟨hlen, ⟨[], by simp⟩⟩
    · refine ⟨?_, ⟨[e], hhist⟩⟩
      rw [hhist, List.length_append, hlen, hcnt]
      simp

/-- Witness for C9 at `loopM` reset on the empty input. -/
theorem c9_history_length_witness :
    (loopM.reset []).1.execution_history.length = (loopM.reset []).1.step_count + 1 :=
  (c9_history_length loopM [] rfl).1
